import Mathlib

/-!
Verification of the feed extraction-and-ranking engine of the linkedin-me
repository.  The definitions below are shallow embeddings of the JavaScript
functions in `filters.js` (signal tables, `shouldSkip`, the sub-scorers of
`compositeScore`) and `feed.js` (`parseAuthorFromLines`, `collectByBodyText`,
`dedup`, the strategy cascade and the selection loop of
`findOneInterestingPost`).

Modelling conventions:
* JavaScript strings are modelled by `String`; `s.length` is modelled by the
  code-point count `strLen` (identical to JS UTF-16 length on the ASCII and
  BMP text the claims are about).
* JS `includes`, `slice`, `trim`, `split` and `toLowerCase` are re-implemented
  over `List Char` so that every definition evaluates by kernel reduction.
* Integer-valued scores are `Int`; the recency score, which divides by a
  count, is `Rat`; composite totals handed to the selector are `Int`
  (the JS total is `Math.round`ed, so it is always an integer).
-/

namespace LinkedinMe

/-! ### JS string primitives -/

/-- Char-level lowercase, modelling JS `toLowerCase` (ASCII range). -/
def lowerStr (s : String) : String := String.mk (s.toList.map Char.toLower)

/-- Model of JS `s.slice(0, n)`. -/
def takeStr (s : String) (n : Nat) : String := String.mk (s.toList.take n)

/-- Model of JS `s.length` (code-point count). -/
def strLen (s : String) : Nat := s.toList.length

/-- Model of JS `s.trim()`: strip whitespace from both ends. -/
def trimStr (s : String) : String :=
  String.mk ((((s.toList.dropWhile Char.isWhitespace).reverse).dropWhile
    Char.isWhitespace).reverse)

/-- Check whether `needle` occurs at the head of `hay`. -/
def headMatch : List Char → List Char → Bool
  | [], _ => true
  | _ :: _, [] => false
  | a :: as, b :: bs => a == b && headMatch as bs

/-- Check whether `needle` occurs anywhere inside `hay`. -/
def subIn (needle hay : List Char) : Bool :=
  headMatch needle hay ||
    match hay with
    | [] => false
    | _ :: t => subIn needle t

/-- Model of JS `hay.includes(needle)`. -/
def includes (hay needle : String) : Bool := subIn needle.toList hay.toList

/-- Model of JS `s.startsWith(p)`. -/
def startsW (s p : String) : Bool := headMatch p.toList s.toList

/-- Model of JS `s.split(sep)` for a single separator character. -/
def splitOnChar (sep : Char) : List Char → List (List Char)
  | [] => [[]]
  | c :: rest =>
    if c = sep then [] :: splitOnChar sep rest
    else
      match splitOnChar sep rest with
      | [] => [[c]]
      | t :: ts => (c :: t) :: ts

/-- Model of JS `s.split('\n')`. -/
def splitNl (s : String) : List String :=
  (splitOnChar '\n' s.toList).map String.mk

/-- Model of JS `parts.join(' ')`. -/
def joinSpace : List String → String
  | [] => ""
  | [s] => s
  | s :: rest => s ++ " " ++ joinSpace rest

/-- Scanner for `jsSplitWs`: `st = some cur` while collecting a field,
`st = none` while inside a whitespace run whose field is already emitted. -/
def wsGo (st : Option (List Char)) : List Char → List (List Char)
  | [] =>
    match st with
    | some cur => [cur.reverse]
    | none => [[]]
  | c :: rest =>
    match st with
    | some cur =>
      if c.isWhitespace then cur.reverse :: wsGo none rest
      else wsGo (some (c :: cur)) rest
    | none =>
      if c.isWhitespace then wsGo none rest
      else wsGo (some [c]) rest

/-- Model of JS `s.split(/\s+/)`: split at each maximal whitespace run
(a leading or trailing run contributes an empty field, as in JS). -/
def jsSplitWs (cs : List Char) : List (List Char) := wsGo (some []) cs

/-- Model of JS `ln.split(/\s+/).filter(Boolean).length`: whitespace-separated
word count. -/
def wordCount (ln : String) : Nat :=
  ((jsSplitWs ln.toList).filter (fun w => ¬w.isEmpty)).length

/-- Model of JS `lc(...parts)` from filters.js: drop empty parts, join with a
space, lowercase. -/
def lc (parts : List String) : String :=
  lowerStr (joinSpace (parts.filter (fun p => p ≠ "")))

/-- Model of JS `hasAny(text, signals)` from filters.js (on plain signal
lists the keyword is the entry itself). -/
def hasAny (text : String) (signals : List String) : Bool :=
  signals.any (fun kw => includes text kw)

/-- Model of JS `Math.min` on integers (plain comparison). -/
def minI (a b : Int) : Int := if a ≤ b then a else b

/-- Model of JS `Math.max` on integers (plain comparison). -/
def maxI (a b : Int) : Int := if a ≤ b then b else a

/-- Model of JS `Math.min` on rationals. -/
def minQ (a b : Rat) : Rat := if a ≤ b then a else b

/-- Model of JS `Math.max` on rationals. -/
def maxQ (a b : Rat) : Rat := if a ≤ b then b else a

/-- Model of JS `clamp(val, min, max)` from filters.js on integer scores:
`Math.min(max, Math.max(min, val))`. -/
def clampI (val lo hi : Int) : Int := minI hi (maxI lo val)

/-- Model of JS `clamp(val, min, max)` on rational scores. -/
def clampQ (val lo hi : Rat) : Rat := minQ hi (maxQ lo val)

/-! ### Signal tables from filters.js -/

/-- Table `AI_SPAM_SIGNALS` from filters.js. -/
def AI_SPAM_SIGNALS : List String :=
  ["in today’s fast paced world", "in todays fast paced world",
   "in today\x27s fast-paced world",
   "as we navigate", "it is important to", "here are 5 lessons",
   "here are 3 lessons", "delve into", "let\x27s dive in"]

/-- Table `ENGAGEMENT_POD_SIGNALS` from filters.js. -/
def ENGAGEMENT_POD_SIGNALS : List String :=
  ["nice one bro", "dm sent", "check inbox", "interested", "great post",
   "thanks for sharing", "commenting for reach"]

/-- Table `STORY_ARC_SIGNALS` from filters.js. -/
def STORY_ARC_SIGNALS : List String :=
  ["started", "failed", "learned", "realized", "after 3 years", "in 2020",
   "in 2021", "in 2022", "we almost", "i almost"]

/-- Table `OTW_SIGNALS` from filters.js. -/
def OTW_SIGNALS : List String :=
  ["open to work", "open to opportunities", "#opentowork", "open for work",
   "#openforwork", "actively seeking", "actively looking", "available for hire",
   "available for opportunities", "job seeker", "#jobseeker",
   "seeking employment", "seeking a role", "seeking new role",
   "looking for a job", "looking for work", "looking for opportunities",
   "looking for my next", "in search of", "open for job", "#hireme",
   "#lookingforjob"]

/-- Table `STUDENT_SIGNALS` from filters.js. -/
def STUDENT_SIGNALS : List String :=
  ["student", "undergraduate", "undergrad", "bsc student", "btech student",
   "cs student", "computer science student", "engineering student",
   "mba student", "intern", "internship", "fresher", "fresh graduate",
   "recent graduate", "new graduate", "entry level", "entry-level",
   "junior developer", "aspiring developer", "aspiring engineer",
   "aspiring professional", "aspiring data scientist",
   "aspiring software engineer", "career break", "career switch",
   "career transition", "bootcamp", "coding bootcamp", "self-taught",
   "self taught", "learning to code", "learning programming"]

/-- Table `JOB_POST_SIGNALS` from filters.js. -/
def JOB_POST_SIGNALS : List String :=
  ["we\x27re hiring", "we are hiring", "now hiring", "join our team",
   "apply now", "apply here", "send your cv", "send your resume",
   "dm me your cv", "link in comments to apply", "job opening",
   "job opportunity", "job vacancy", "open position", "open role",
   "currently hiring", "#hiring", "#jobopening", "#vacancy", "#recruitment",
   "#recruiting"]

/-- Table `SENTIMENT_SKIP_SIGNALS` from filters.js (grief / tragedy). -/
def SENTIMENT_SKIP_SIGNALS : List String :=
  ["lost my", "passed away", "rest in peace", "rip ", "we lost",
   "diagnosed with", "cancer", "funeral", "grieving", "in mourning",
   "laid off today", "just got laid off", "just lost my job",
   "health crisis", "mental breakdown", "suicide", "depression",
   "struggling mentally", "lost someone", "tragedy", "devastating news"]

/-- Table `NICHE_SIGNALS` from filters.js. -/
def NICHE_SIGNALS : List String :=
  ["nodejs", "node.js", "backend", "api design", "rest api", "graphql",
   "microservices", "distributed systems", "system design", "architecture",
   "kubernetes", "docker", "devops", "ci/cd", "deployment",
   "nextjs", "next.js", "react", "typescript", "full stack", "fullstack",
   "ai workflow", "automation", "n8n", "llm", "ai agent", "openai", "gemini",
   "langchain", "rag", "prompt engineering",
   "saas", "startup", "founder", "cto", "ceo", "product", "engineering",
   "developer experience", "open source", "shipped", "launched"]

/-- Table `SENIORITY_SIGNALS` from filters.js: priority-ordered
(keyword, points) pairs matched against the lowercased headline. -/
def SENIORITY_SIGNALS : List (String × Int) :=
  [("founder", 25), ("co-founder", 25), ("ceo", 25), ("cto", 22),
   ("chief", 20), ("vp ", 20), ("vice president", 20), ("partner", 18),
   ("director", 15), ("head of", 15), ("principal", 14),
   ("staff engineer", 14), ("staff software", 14),
   ("engineering manager", 12), ("product manager", 12), ("sr.", 10),
   ("senior", 10), ("lead ", 10)]

/-- Table `GOOD_SIGNALS` from filters.js. -/
def GOOD_SIGNALS : List String :=
  ["startup", "founder", "product", "engineering", "developer", "software",
   "ai", "machine learning", "devops", "architecture", "design", "backend",
   "leadership", "team", "lesson", "learned", "mistake", "failure",
   "growth", "scale", "strategy", "decision", "insight", "opinion",
   "built", "shipped", "launched", "revenue", "mrr", "bootstrap",
   "open source", "automation", "workflow", "experience", "story"]

/-- Table `BAD_SIGNALS` from filters.js. -/
def BAD_SIGNALS : List String :=
  ["motivational quote", "agree?", "share if you agree",
   "repost if", "double tap", "humble", "blessed", "grateful for",
   "like if", "comment below", "what do you think?"]

/-! ### Skip checks from filters.js -/

/-- Model of `isOpenToWork` from filters.js. -/
def isOpenToWork (authorName authorHeadline postText : String) : Bool :=
  hasAny (lc [authorName, authorHeadline, takeStr postText 400]) OTW_SIGNALS

/-- Model of `isStudent` from filters.js. -/
def isStudent (authorName authorHeadline postText : String) : Bool :=
  hasAny (lc [authorName, authorHeadline, takeStr postText 400]) STUDENT_SIGNALS

/-- Model of `isJobPost` from filters.js (JS `lc('', '', t.slice(0, 800))`
drops the empty parts). -/
def isJobPost (postText : String) : Bool :=
  hasAny (lc [takeStr postText 800]) JOB_POST_SIGNALS

/-- Model of `isSentimentPost` from filters.js: grief signals matched against
the first 600 characters. -/
def isSentimentPost (postText : String) : Bool :=
  hasAny (lc [takeStr postText 600]) SENTIMENT_SKIP_SIGNALS

/-- Result record of `shouldSkip`. -/
structure SkipResult where
  skip : Bool
  reason : String
deriving DecidableEq

/-- Model of `shouldSkip` from filters.js: four rule groups checked in fixed
order, short-circuiting at the first match. -/
def shouldSkip (authorName authorHeadline postText : String) : SkipResult :=
  if isOpenToWork authorName authorHeadline postText then
    ⟨true, "Author is Open To Work"⟩
  else if isStudent authorName authorHeadline postText then
    ⟨true, "Author appears to be a student / junior"⟩
  else if isJobPost postText then
    ⟨true, "Post is a job advertisement"⟩
  else if isSentimentPost postText then
    ⟨true, "Post is about grief / tragedy — skip out of respect"⟩
  else ⟨false, ""⟩

/-! ### Sub-scorers from filters.js -/

/-- Model of `calcHeuristicScore(postText, commentsData)` from filters.js. -/
def calcHeuristicScore (postText : String) (commentsData : List String) : Int :=
  let t := lc [postText]
  if strLen postText < 100 then 0
  else
    let score : Int :=
      (if 300 < strLen postText then 15 else 0)
      + (if 600 < strLen postText then 10 else 0)
      + (if 1000 < strLen postText then 5 else 0)
      + 5 * (GOOD_SIGNALS.countP (fun kw => includes t kw) : Int)
      - 10 * (BAD_SIGNALS.countP (fun kw => includes t kw) : Int)
      + (if 2 ≤ STORY_ARC_SIGNALS.countP (fun kw => includes t kw) then 20 else 0)
      - 20 * (AI_SPAM_SIGNALS.countP (fun kw => includes t kw) : Int)
      + (if 0 < commentsData.length ∧
            2 ≤ ENGAGEMENT_POD_SIGNALS.countP
              (fun kw => includes (lowerStr (joinSpace commentsData)) kw)
          then -30 else 0)
    clampI score 0 100

/-- Model of `calcSeniorityScore(authorHeadline)` from filters.js: first
matching table entry scores `points * 4` capped at 80, unmatched headline
defaults to 20, then the creator/newsletter/investor/angel proxy boost is
added and the result is clamped. -/
def calcSeniorityScore (authorHeadline : String) : Int :=
  let hl := lowerStr authorHeadline
  let proxyBoost : Int :=
    (if includes hl "creator" || includes hl "newsletter" then 15 else 0)
    + (if includes hl "angel" || includes hl "investor" then 10 else 0)
  let rawScore : Int :=
    match SENIORITY_SIGNALS.find? (fun e => includes hl e.1) with
    | some e => e.2 * 4
    | none => 20
  clampI (minI rawScore 80 + proxyBoost) 0 100

/-- Model of `calcNicheScore(postText)` from filters.js. -/
def calcNicheScore (postText : String) : Int :=
  let t := lc [postText]
  clampI (15 * (NICHE_SIGNALS.countP (fun kw => includes t kw) : Int)) 0 100

/-- Age-label test from `calcRecencyScore`: JS
`lowerAge.includes('m •') || lowerAge.includes('1h •')`. -/
def recencyAgeBoost (postAge : String) : Bool :=
  includes (lowerStr postAge) "m •" || includes (lowerStr postAge) "1h •"

/-- Model of `calcRecencyScore(positionIndex, totalPosts, postAge)` from
filters.js: position ratio only when `totalPosts > 0`, else the neutral 50;
then the age-label bonus and the clamp. -/
def calcRecencyScore (positionIndex totalPosts : Nat) (postAge : String) : Rat :=
  let base : Rat :=
    if 0 < totalPosts then (1 - (positionIndex : Rat) / (totalPosts : Rat)) * 100
    else 50
  let score := base + (if recencyAgeBoost postAge then 20 else 0)
  clampQ score 0 100

/-- Model of `calcCommentVisibilityScore(commentCount)` from filters.js. -/
def calcCommentVisibilityScore (commentCount : Nat) : Int :=
  if commentCount ≤ 5 then 90
  else if commentCount ≤ 20 then 100
  else if commentCount ≤ 50 then 75
  else if commentCount ≤ 100 then 50
  else if commentCount ≤ 200 then 25
  else 10

/-- Model of the contextual modifiers that `compositeScore` adds to the
heuristic sub-score before clamping: early-traction band, connection boost,
post-format adjustment, shallow-thread bonus and author-reply bonus. -/
def modifierSum (reactionCount commentCount : Nat) (isConnection : Bool)
    (postFormat : String) (commentsData : List String)
    (authorReplied : Bool) : Int :=
  (if 15 ≤ reactionCount ∧ reactionCount ≤ 150 ∧ commentCount ≤ 40
    then 15 else 0)
  + (if isConnection then 15 else 0)
  + (if postFormat = "text" then 10 else 0)
  + (if postFormat = "image" then 5 else 0)
  + (if postFormat = "poll" then -10 else 0)
  + (if 0 < commentsData.length ∧
        (commentsData.map strLen).sum * 1 < 50 * commentsData.length
      then 20 else 0)
  + (if authorReplied then 20 else 0)

/-- Model of the `heuristic` field of the breakdown returned by
`compositeScore`: the base `calcHeuristicScore` plus the contextual
modifiers, clamped to [0, 100] (the JS `Math.round` is the identity on this
integer value). -/
def breakdownHeuristic (postText : String) (commentsData : List String)
    (reactionCount commentCount : Nat) (isConnection : Bool)
    (postFormat : String) (authorReplied : Bool) : Int :=
  clampI (calcHeuristicScore postText commentsData
    + modifierSum reactionCount commentCount isConnection postFormat
        commentsData authorReplied) 0 100

/-! ### Parser and extraction strategies from feed.js -/

/-- Model of `isRealAuthorName(name)` from feed.js: length window 3–80, a
denylist of interface-chrome patterns (all anchored prefix or whole-string
regexes applied to the lowercased name), and at least one ASCII letter. -/
def isRealAuthorName (name : String) : Bool :=
  if name.isEmpty || strLen name < 3 || 80 < strLen name then false
  else
    let lower := lowerStr name
    if startsW lower "feed post" || startsW lower "linkedin member" ||
        startsW lower "unknown" || startsW lower "post number" ||
        startsW lower "sponsored" || startsW lower "promoted" ||
        (¬lower.isEmpty && lower.toList.all Char.isDigit) ||
        startsW lower "see more" || startsW lower "following" ||
        lower = "follow" || lower = "connect" || lower = "message" ||
        lower = "like" || lower = "comment" || lower = "share" ||
        lower = "send"
      then false
    else name.toList.any (fun c =>
      ('a' ≤ c ∧ c ≤ 'z') ∨ ('A' ≤ c ∧ c ≤ 'Z'))

/-- Result record of `parseAuthorFromLines`. -/
structure ParsedAuthor where
  authorName : String
  authorHeadline : String
  postText : String
  isConnection : Bool
deriving DecidableEq

/-- Loop of `parseAuthorFromLines`: scans lines `i < min(length, 15)` (the
remaining iteration count is the structural fuel) keeping the candidate
author name, headline and body start index, with the same continue/break
structure as the JS `for` loop. -/
def parseAuthorGo (lines : List String) :
    Nat → Nat → String → String → Nat → String × String × Nat
  | 0, _, authorName, authorHeadline, bodyStart =>
    (authorName, authorHeadline, bodyStart)
  | fuel + 1, i, authorName, authorHeadline, bodyStart =>
    let ln := lines.getD i ""
    let wc := wordCount ln
    if ln.isEmpty || 80 < strLen ln || includes ln "http" then
      if authorName ≠ "" then (authorName, authorHeadline, bodyStart)
      else parseAuthorGo lines fuel (i + 1) authorName authorHeadline bodyStart
    else if authorName = "" then
      if 1 ≤ wc ∧ wc ≤ 8 ∧ isRealAuthorName ln then
        parseAuthorGo lines fuel (i + 1) ln authorHeadline (i + 1)
      else parseAuthorGo lines fuel (i + 1) authorName authorHeadline bodyStart
    else if authorHeadline = "" ∧ wc ≤ 14 then
      parseAuthorGo lines fuel (i + 1) authorName ln (i + 1)
    else (authorName, authorHeadline, bodyStart)

/-- Model of `parseAuthorFromLines(lines)` from feed.js. -/
def parseAuthorFromLines (lines : List String) : ParsedAuthor :=
  let st := parseAuthorGo lines (min lines.length 15) 0 "" "" 0
  let postText := trimStr (joinSpace (lines.drop st.2.2))
  let isConnection :=
    includes (lowerStr st.2.1) "1st" ||
      (lines.take 3).any (fun l => includes (lowerStr l) "1st")
  { authorName := if st.1 = "" then "Unknown" else st.1,
    authorHeadline := st.2.1, postText := postText,
    isConnection := isConnection }

/-- Candidate record produced by the extraction strategies (the object
literals pushed into `results` in feed.js). -/
structure Post where
  postUrl : Option String
  authorName : String
  authorHeadline : String
  postText : String
  cardText : String
  isConnection : Bool
  postFormat : String
  commentsData : List String
  authorReplied : Bool
  postAge : String
deriving DecidableEq

/-- Scanner for `splitChunks`: `mode 0` is inside a chunk, `mode 1` has
seen exactly one newline (a second one starts a separator run, anything
else keeps the single newline inside the chunk), `mode 2` is inside a
separator run of two or more newlines. -/
def chunkScan (mode : Nat) (cur : List Char) : List Char → List (List Char)
  | [] =>
    if mode = 0 then [cur.reverse]
    else if mode = 1 then [('\n' :: cur).reverse]
    else [[]]
  | c :: rest =>
    if mode = 2 then
      if c = '\n' then chunkScan 2 [] rest
      else chunkScan 0 [c] rest
    else if mode = 1 then
      if c = '\n' then cur.reverse :: chunkScan 2 [] rest
      else chunkScan 0 (c :: '\n' :: cur) rest
    else
      if c = '\n' then chunkScan 1 cur rest
      else chunkScan 0 (c :: cur) rest

/-- Model of JS `bodyText.split(/\n{2,}/)`: split at each maximal run of two
or more newlines. -/
def splitChunks (s : String) : List String :=
  (chunkScan 0 [] s.toList).map String.mk

/-- Nav-chrome prefix test of `collectByBodyText`: JS
`/^(home|my network|jobs|messaging|notifications|search)/.test(lower)`. -/
def navChromeStart (lower : String) : Bool :=
  startsW lower "home" || startsW lower "my network" ||
  startsW lower "jobs" || startsW lower "messaging" ||
  startsW lower "notifications" || startsW lower "search"

/-- Chunk loop of `collectByBodyText`: length window 120–5000, at least 10
whitespace-separated fields, no nav-chrome prefix, local dedup on the first
50 characters, then `parseAuthorFromLines`; metrics default since this
strategy has no DOM container. -/
def collectChunksGo (seen : List String) : List String → List Post
  | [] => []
  | chunk :: rest =>
    let trimmed := trimStr chunk
    if strLen trimmed < 120 || 5000 < strLen trimmed then
      collectChunksGo seen rest
    else if (jsSplitWs trimmed.toList).length < 10 then
      collectChunksGo seen rest
    else if navChromeStart (lowerStr trimmed) then
      collectChunksGo seen rest
    else
      let key := takeStr trimmed 50
      if key ∈ seen then collectChunksGo seen rest
      else
        let lines := ((splitNl trimmed).map trimStr).filter (fun l => ¬l.isEmpty)
        let pa := parseAuthorFromLines lines
        { postUrl := none, authorName := pa.authorName,
          authorHeadline := pa.authorHeadline, postText := pa.postText,
          cardText := trimmed, isConnection := pa.isConnection,
          postFormat := "text", commentsData := [], authorReplied := false,
          postAge := "" } :: collectChunksGo (key :: seen) rest

/-- Model of `collectByBodyText(page)` from feed.js, with the page snapshot
replaced by the string `document.body.innerText` evaluates to. -/
def collectByBodyText (bodyText : String) : List Post :=
  if strLen bodyText < 500 then []
  else collectChunksGo [] (splitChunks bodyText)

/-- Final filter of `collectByLinkWalk` and `collectByDataUrn`:
`.then((raw) => raw.filter((p) => p.postText.length >= 80))`.  The DOM walk
producing `raw` runs inside the opaque page snapshot and is treated as
arbitrary input. -/
def strategyLengthFilter (raw : List Post) : List Post :=
  raw.filter (fun p => decide (80 ≤ strLen p.postText))

/-! ### Dedup from feed.js -/

/-- Loop of `dedup(posts)` with the two membership sets made explicit: the
text-prefix key is recorded for every inspected element before the URL
check, the URL only for kept elements, exactly as the JS closure over
`seenUrls` / `seenText` does. -/
def dedupGo (seenUrls seenText : List String) : List Post → List Post
  | [] => []
  | p :: rest =>
    let textKey := takeStr p.postText 60
    if textKey ∈ seenText then dedupGo seenUrls seenText rest
    else
      match p.postUrl with
      | some url =>
        if url ∈ seenUrls then dedupGo seenUrls (textKey :: seenText) rest
        else p :: dedupGo (url :: seenUrls) (textKey :: seenText) rest
      | none => p :: dedupGo seenUrls (textKey :: seenText) rest

/-- Model of `dedup(posts)` from feed.js. -/
def dedup (posts : List Post) : List Post := dedupGo [] [] posts

/-! ### Strategy cascade and selection from feed.js -/

/-- Outcome of running one extraction strategy: either the list it returned
or the exception it raised. -/
abbrev StrategyResult := Except String (List Post)

/-- Number of records a strategy outcome contributes: an error is treated
exactly like an empty result list. -/
def strategyYield (r : StrategyResult) : Nat :=
  match r with
  | Except.error _ => 0
  | Except.ok found => found.length

/-- Model of the strategy loop of `findOneInterestingPost`: try outcomes in
order, stop at the first strategy whose result list is non-empty, treat a
caught exception as zero results, and fall through to `[]` when every
strategy errors or is empty. -/
def runStrategies : List StrategyResult → List Post
  | [] => []
  | Except.error _ :: rest => runStrategies rest
  | Except.ok found :: rest =>
    if 0 < found.length then found else runStrategies rest

/-- Post paired with the composite total the scoring loop attached to it
(`{ ...post, compositeScore: score }`). -/
structure ScoredPost where
  post : Post
  compositeScore : Int
deriving DecidableEq

/-- Gate of the scoring loop, JS `score >= thresholds[thresholds.length - 1]`
(with an empty threshold list the comparison against `undefined` is false). -/
def minGate (thresholds : List Int) (score : Int) : Bool :=
  match thresholds.getLast? with
  | some t => decide (t ≤ score)
  | none => false

/-- Scoring loop of `findOneInterestingPost` (the `for (let i = 0; ...)`
over the deduplicated posts): skip locator-less posts, already-commented
URLs, posts failing `shouldSkip`, and authors on the 7-day cooldown; score
the remainder and keep those meeting the minimum threshold.  The composite
scorer is passed as a function `scoreFn post i total` abstracting
`parseEngagement(post.cardText)` + `compositeScore({...})`, whose
engagement term uses floating-point `log10`.  -/
def buildCandidates (scoreFn : Post → Nat → Nat → Int)
    (commentedUrls recentAuthors : List String) (thresholds : List Int)
    (total : Nat) : List Post → Nat → List ScoredPost
  | [], _ => []
  | post :: rest, i =>
    let tail := buildCandidates scoreFn commentedUrls recentAuthors thresholds
      total rest (i + 1)
    match post.postUrl with
    | none => tail
    | some url =>
      if url ∈ commentedUrls then tail
      else if (shouldSkip post.authorName post.authorHeadline post.postText).skip
        then tail
      else if lowerStr post.authorName ∈ recentAuthors then tail
      else
        let score := scoreFn post i total
        if minGate thresholds score then ⟨post, score⟩ :: tail else tail

/-- Posts that reach the scoring step of the loop (the suffix of the loop
body from `parseEngagement` on): same four gates as `buildCandidates`, kept
regardless of their score. -/
def evaluatedPosts (commentedUrls recentAuthors : List String) :
    List Post → List Post
  | [] => []
  | post :: rest =>
    let tail := evaluatedPosts commentedUrls recentAuthors rest
    match post.postUrl with
    | none => tail
    | some url =>
      if url ∈ commentedUrls then tail
      else if (shouldSkip post.authorName post.authorHeadline post.postText).skip
        then tail
      else if lowerStr post.authorName ∈ recentAuthors then tail
      else post :: tail

/-- Descending-priority relation used to model the JS stable sort
`validCandidates.sort((a, b) => b.compositeScore - a.compositeScore)`. -/
def scoreDesc (a b : ScoredPost) : Prop :=
  b.compositeScore ≤ a.compositeScore

instance : DecidableRel scoreDesc := fun a b =>
  inferInstanceAs (Decidable (b.compositeScore ≤ a.compositeScore))

/-- Tail of `findOneInterestingPost` after the scoring loop: return null on
an empty candidate list, find the active threshold (first tier some
candidate meets, defaulting to the minimum tier), keep candidates at or
above it, stable-sort descending by composite score and take the head. -/
def selectAmong (candidates : List ScoredPost) (thresholds : List Int) :
    Option ScoredPost :=
  if candidates.isEmpty then none
  else
    let active := (thresholds.find? (fun t =>
      candidates.any (fun c => decide (t ≤ c.compositeScore)))).getD
        ((thresholds.getLast?).getD 0)
    let valid := candidates.filter (fun c => decide (active ≤ c.compositeScore))
    (List.insertionSort scoreDesc valid).head?

/-- Selector phase over already-scored surviving candidates: the minimum
threshold gate of the loop followed by `selectAmong`. -/
def selectPhase (scored : List ScoredPost) (thresholds : List Int) :
    Option ScoredPost :=
  selectAmong (scored.filter (fun c => minGate thresholds c.compositeScore))
    thresholds

/-- First threshold in the tier list that some surviving candidate's total
meets or exceeds (the claim-level description of the active threshold). -/
def activeThreshold (scored : List ScoredPost) (thresholds : List Int) :
    Option Int :=
  thresholds.find? (fun t =>
    scored.any (fun c => decide (t ≤ c.compositeScore)))

/-- Pure core of `findOneInterestingPost(page, commentedUrls, recentAuthors,
thresholds)`: the strategy outcomes stand in for the page interactions and
`scoreFn` for the composite scorer, everything else mirrors the JS control
flow (cascade, empty check, dedup, scoring loop, selection). -/
def findOneInterestingPost (scoreFn : Post → Nat → Nat → Int)
    (strategyResults : List StrategyResult)
    (commentedUrls recentAuthors : List String) (thresholds : List Int) :
    Option ScoredPost :=
  let posts := runStrategies strategyResults
  if posts.isEmpty then none
  else
    let deduped := dedup posts
    let candidates := buildCandidates scoreFn commentedUrls recentAuthors
      thresholds deduped.length deduped 0
    selectAmong candidates thresholds

/-- First element of the list attaining the (weak) maximum composite score:
the value a stable descending sort puts at index 0. -/
def firstMax : List ScoredPost → Option ScoredPost
  | [] => none
  | c :: rest =>
    match firstMax rest with
    | none => some c
    | some b => if b.compositeScore ≤ c.compositeScore then some c else some b

/-- Dedup-distinctness of two candidates: different 60-character text
prefixes, and either no locator on the first or different locators. -/
def distinctPost (p q : Post) : Prop :=
  takeStr p.postText 60 ≠ takeStr q.postText 60 ∧
    (p.postUrl = none ∨ p.postUrl ≠ q.postUrl)

/-! ### Concrete demonstration inputs -/

/-- Ordinary benign candidate with a locator, used to instantiate the
general theorems. -/
def demoPostA : Post :=
  { postUrl := some "https://www.linkedin.com/posts/ann-author-1",
    authorName := "Ann Author", authorHeadline := "CTO at Acme",
    postText := "We shipped a new backend service today and the rollout taught the whole team a lot",
    cardText := "", isConnection := false, postFormat := "text",
    commentsData := [], authorReplied := false, postAge := "" }

/-- Second benign candidate with a different locator and text. -/
def demoPostB : Post :=
  { postUrl := some "https://www.linkedin.com/posts/bob-builder-2",
    authorName := "Bob Builder", authorHeadline := "VP Engineering",
    postText := "Scaling a distributed system is mostly about deciding what to leave out",
    cardText := "", isConnection := false, postFormat := "text",
    commentsData := [], authorReplied := false, postAge := "" }

/-- Copy of `demoPostA` without a locator. -/
def noUrlPost : Post := { demoPostA with postUrl := none }

/-- The two surviving candidates of the worked selector example, with
composite totals 72 and 58. -/
def demoScored : List ScoredPost := [⟨demoPostA, 72⟩, ⟨demoPostB, 58⟩]

/-- The descending tier list of the worked selector example. -/
def demoThresholds : List Int := [80, 70, 60]

/-- Constant composite scorer used to instantiate the pipeline theorems. -/
def demoScoreFn : Post → Nat → Nat → Int := fun _ _ _ => 100

/-- Author line of the short-body chunk fed to `collectByBodyText`. -/
def demoNameLine : String :=
  "Aaaaaaaaaaaa Bbbbbbbbbbbb Cccccccccc Dddddddddd Eeeeeeeeee"

/-- Headline line of the short-body chunk. -/
def demoHeadlineLine : String :=
  "Ffffffff Gggggggg Hhhhhhhh Iiiiiiii Jjjjjjjj Kkkkkkkk"

/-- Body line of the short-body chunk: 34 characters, well under 80. -/
def demoBodyLine : String := "Great launch today my dear friends"

/-- Chunk of 147 characters whose parsed body text is only 34 characters. -/
def demoChunk : String :=
  demoNameLine ++ "\n" ++ demoHeadlineLine ++ "\n" ++ demoBodyLine

/-- Page text for `collectByBodyText`: a 500-character single-word filler
chunk (rejected by the 10-word minimum) followed by the short-body chunk. -/
def demoBodyText : String :=
  String.mk (List.replicate 500 'a') ++ "\n\n" ++ demoChunk

/-! ### Helper lemmas -/

theorem find?_some_split {α : Type} {p : α → Bool} :
    ∀ {l : List α} {a : α}, l.find? p = some a →
      ∃ l1 l2, l = l1 ++ a :: l2 ∧ (∀ x ∈ l1, p x = false) ∧ p a = true := by
  intro l
  induction l with
  | nil => intro a h; simp [List.find?] at h
  | cons b rest ih =>
    intro a h
    by_cases hb : p b
    · rw [List.find?_cons_of_pos _ hb] at h
      cases h
      exact ⟨[], rest, by simp, by simp, hb⟩
    · rw [List.find?_cons_of_neg _ hb] at h
      obtain ⟨l1, l2, he, hfalse, hpa⟩ := ih h
      exact ⟨b :: l1, l2, by simp [he], by
        intro x hx
        rcases List.mem_cons.mp hx with rfl | hx
        · exact Bool.of_not_eq_true hb
        · exact hfalse x hx, hpa⟩

theorem find?_congr_mem {α : Type} {p q : α → Bool} :
    ∀ {l : List α}, (∀ a ∈ l, p a = q a) → l.find? p = l.find? q := by
  intro l
  induction l with
  | nil => intro _; rfl
  | cons b rest ih =>
    intro h
    have hb := h b (List.mem_cons_self b rest)
    by_cases hpb : p b
    · rw [List.find?_cons_of_pos _ hpb, List.find?_cons_of_pos _ (hb ▸ hpb)]
    · rw [List.find?_cons_of_neg _ hpb, List.find?_cons_of_neg _ (hb ▸ hpb)]
      exact ih (fun a ha => h a (List.mem_cons_of_mem b ha))

theorem getLast?_le_of_pairwise_ge :
    ∀ {l : List Int} {t tl : Int}, l.Pairwise (· ≥ ·) → t ∈ l →
      l.getLast? = some tl → tl ≤ t := by
  intro l
  induction l with
  | nil => intro t tl _ ht; simp at ht
  | cons a rest ih =>
    intro t tl hd ht hl
    rw [List.pairwise_cons] at hd
    cases rest with
    | nil =>
      simp at ht hl
      exact le_of_eq ((ht.trans hl).symm)
    | cons b rest' =>
      rw [List.getLast?_cons_cons] at hl
      rcases List.mem_cons.mp ht with rfl | ht
      · have htl : tl ∈ b :: rest' := List.mem_of_getLast?_eq_some hl
        exact hd.1 tl htl
      · exact ih hd.2 ht hl

theorem firstMax_eq_none : ∀ {l : List ScoredPost}, firstMax l = none ↔ l = [] := by
  intro l
  cases l with
  | nil => simp [firstMax]
  | cons c rest =>
    simp only [firstMax]
    constructor
    · intro h
      cases hr : firstMax rest with
      | none => rw [hr] at h; simp at h
      | some b => rw [hr] at h; by_cases hb : b.compositeScore ≤ c.compositeScore <;>
          simp [hb] at h
    · intro h; simp at h

theorem firstMax_split :
    ∀ {l : List ScoredPost} {w : ScoredPost}, firstMax l = some w →
      ∃ l1 l2, l = l1 ++ w :: l2 ∧
        (∀ c ∈ l1, c.compositeScore < w.compositeScore) ∧
        ∀ c ∈ l, c.compositeScore ≤ w.compositeScore := by
  intro l
  induction l with
  | nil => intro w h; simp [firstMax] at h
  | cons c rest ih =>
    intro w h
    simp only [firstMax] at h
    cases hr : firstMax rest with
    | none =>
      rw [hr] at h
      simp only at h
      cases h
      have : rest = [] := firstMax_eq_none.mp hr
      subst this
      exact ⟨[], [], by simp, by simp, by simp⟩
    | some b =>
      rw [hr] at h
      obtain ⟨r1, r2, hre, hlt, hmax⟩ := ih hr
      by_cases hb : b.compositeScore ≤ c.compositeScore
      · simp only [hb, if_pos] at h
        cases h
        refine ⟨[], rest, by simp, by simp, ?_⟩
        intro x hx
        rcases List.mem_cons.mp hx with rfl | hx
        · exact le_refl _
        · exact le_trans (hmax x hx) hb
      · simp only [hb, if_neg, if_false] at h
        cases h
        refine ⟨c :: r1, r2, by simp [hre], ?_, ?_⟩
        · intro x hx
          rcases List.mem_cons.mp hx with rfl | hx
          · exact lt_of_not_le hb
          · exact hlt x hx
        · intro x hx
          rcases List.mem_cons.mp hx with rfl | hx
          · exact le_of_lt (lt_of_not_le hb)
          · exact hmax x hx

theorem head?_orderedInsert (a : ScoredPost) :
    ∀ s : List ScoredPost,
      (List.orderedInsert scoreDesc a s).head? =
        match s.head? with
        | none => some a
        | some b =>
          if b.compositeScore ≤ a.compositeScore then some a else some b := by
  intro s
  cases s with
  | nil => simp [List.orderedInsert]
  | cons b t =>
    by_cases hb : b.compositeScore ≤ a.compositeScore
    · rw [List.orderedInsert, if_pos (show scoreDesc a b from hb)]
      simp [hb]
    · rw [List.orderedInsert, if_neg (show ¬scoreDesc a b from hb)]
      simp [hb]

theorem head?_insertionSort :
    ∀ l : List ScoredPost,
      (List.insertionSort scoreDesc l).head? = firstMax l := by
  intro l
  induction l with
  | nil => simp [List.insertionSort, firstMax]
  | cons a rest ih =>
    rw [List.insertionSort, head?_orderedInsert a, ih]
    simp only [firstMax]

theorem mem_buildCandidates {scoreFn : Post → Nat → Nat → Int}
    {commentedUrls recentAuthors : List String} {thresholds : List Int}
    {total : Nat} :
    ∀ {l : List Post} {i : Nat} {c : ScoredPost},
      c ∈ buildCandidates scoreFn commentedUrls recentAuthors thresholds total l i →
      c.post ∈ l ∧
        (shouldSkip c.post.authorName c.post.authorHeadline c.post.postText).skip
          = false ∧
        c.post.postUrl ≠ none ∧ minGate thresholds c.compositeScore = true := by
  intro l
  induction l with
  | nil => intro i c h; simp [buildCandidates] at h
  | cons post rest ih =>
    intro i c h
    simp only [buildCandidates] at h
    split at h
    · obtain ⟨h1, h2, h3, h4⟩ := ih h
      exact ⟨List.mem_cons_of_mem _ h1, h2, h3, h4⟩
    · rename_i url hu
      split at h
      · obtain ⟨h1, h2, h3, h4⟩ := ih h
        exact ⟨List.mem_cons_of_mem _ h1, h2, h3, h4⟩
      · split at h
        · obtain ⟨h1, h2, h3, h4⟩ := ih h
          exact ⟨List.mem_cons_of_mem _ h1, h2, h3, h4⟩
        · rename_i hsk
          split at h
          · obtain ⟨h1, h2, h3, h4⟩ := ih h
            exact ⟨List.mem_cons_of_mem _ h1, h2, h3, h4⟩
          · split at h
            · rename_i hg
              rcases List.mem_cons.mp h with rfl | h
              · exact ⟨List.mem_cons_self _ _, by simpa using hsk,
                  by simp [hu], hg⟩
              · obtain ⟨h1, h2, h3, h4⟩ := ih h
                exact ⟨List.mem_cons_of_mem _ h1, h2, h3, h4⟩
            · obtain ⟨h1, h2, h3, h4⟩ := ih h
              exact ⟨List.mem_cons_of_mem _ h1, h2, h3, h4⟩

theorem mem_evaluatedPosts {commentedUrls recentAuthors : List String} :
    ∀ {l : List Post} {p : Post},
      p ∈ evaluatedPosts commentedUrls recentAuthors l →
      p ∈ l ∧ p.postUrl ≠ none ∧
        (shouldSkip p.authorName p.authorHeadline p.postText).skip = false := by
  intro l
  induction l with
  | nil => intro p h; simp [evaluatedPosts] at h
  | cons post rest ih =>
    intro p h
    simp only [evaluatedPosts] at h
    split at h
    · obtain ⟨h1, h2, h3⟩ := ih h
      exact ⟨List.mem_cons_of_mem _ h1, h2, h3⟩
    · rename_i url hu
      split at h
      · obtain ⟨h1, h2, h3⟩ := ih h
        exact ⟨List.mem_cons_of_mem _ h1, h2, h3⟩
      · split at h
        · obtain ⟨h1, h2, h3⟩ := ih h
          exact ⟨List.mem_cons_of_mem _ h1, h2, h3⟩
        · rename_i hsk
          split at h
          · obtain ⟨h1, h2, h3⟩ := ih h
            exact ⟨List.mem_cons_of_mem _ h1, h2, h3⟩
          · rcases List.mem_cons.mp h with rfl | h
            · exact ⟨List.mem_cons_self _ _, by simp [hu], by simpa using hsk⟩
            · obtain ⟨h1, h2, h3⟩ := ih h
              exact ⟨List.mem_cons_of_mem _ h1, h2, h3⟩

theorem selectAmong_mem {candidates : List ScoredPost} {thresholds : List Int}
    {w : ScoredPost} (h : selectAmong candidates thresholds = some w) :
    w ∈ candidates := by
  unfold selectAmong at h
  by_cases he : candidates.isEmpty
  · rw [if_pos he] at h; exact absurd h (by simp)
  · rw [if_neg he] at h
    rw [head?_insertionSort] at h
    obtain ⟨l1, l2, hsplit, -, -⟩ := firstMax_split h
    have hmem : w ∈ l1 ++ w :: l2 :=
      List.mem_append_right _ (List.mem_cons_self _ _)
    rw [← hsplit] at hmem
    exact List.mem_of_mem_filter hmem

theorem findOne_eq_some {scoreFn : Post → Nat → Nat → Int}
    {strategyResults : List StrategyResult}
    {commentedUrls recentAuthors : List String} {thresholds : List Int}
    {w : ScoredPost}
    (h : findOneInterestingPost scoreFn strategyResults commentedUrls
      recentAuthors thresholds = some w) :
    w ∈ buildCandidates scoreFn commentedUrls recentAuthors thresholds
      (dedup (runStrategies strategyResults)).length
      (dedup (runStrategies strategyResults)) 0 := by
  unfold findOneInterestingPost at h
  by_cases he : (runStrategies strategyResults).isEmpty
  · rw [if_pos he] at h; exact absurd h (by simp)
  · rw [if_neg he] at h
    exact selectAmong_mem h

theorem runStrategies_all_zero :
    ∀ {l : List StrategyResult}, (∀ r ∈ l, strategyYield r = 0) →
      runStrategies l = [] := by
  intro l
  induction l with
  | nil => intro _; rfl
  | cons r rest ih =>
    intro h
    cases r with
    | error e => exact ih (fun r hr => h r (List.mem_cons_of_mem _ hr))
    | ok found =>
      have h0 : found.length = 0 := h (Except.ok found) (List.mem_cons_self _ _)
      simp only [runStrategies, h0]
      exact ih (fun r hr => h r (List.mem_cons_of_mem _ hr))

theorem runStrategies_append_zero :
    ∀ {pre rest : List StrategyResult}, (∀ r ∈ pre, strategyYield r = 0) →
      runStrategies (pre ++ rest) = runStrategies rest := by
  intro pre
  induction pre with
  | nil => intro rest _; rfl
  | cons r pre' ih =>
    intro rest h
    cases r with
    | error e =>
      exact ih (fun r hr => h r (List.mem_cons_of_mem _ hr))
    | ok found =>
      have h0 : found.length = 0 := h (Except.ok found) (List.mem_cons_self _ _)
      simp only [List.cons_append, runStrategies, h0]
      exact ih (fun r hr => h r (List.mem_cons_of_mem _ hr))

theorem dedupGo_sublist :
    ∀ (l : List Post) (seenUrls seenText : List String),
      (dedupGo seenUrls seenText l).Sublist l := by
  intro l
  induction l with
  | nil => intro su st; simp [dedupGo]
  | cons p rest ih =>
    intro su st
    simp only [dedupGo]
    by_cases ht : takeStr p.postText 60 ∈ st
    · rw [if_pos ht]
      exact (ih su st).cons p
    · rw [if_neg ht]
      split
      · split
        · exact (ih _ _).cons p
        · exact (ih _ _).cons₂ p
      · exact (ih _ _).cons₂ p

theorem dedupGo_invariant :
    ∀ (l : List Post) (seenUrls seenText : List String),
      (dedupGo seenUrls seenText l).Pairwise distinctPost ∧
      (∀ p ∈ dedupGo seenUrls seenText l,
        takeStr p.postText 60 ∉ seenText ∧
          ∀ u, p.postUrl = some u → u ∉ seenUrls) := by
  intro l
  induction l with
  | nil => intro su st; simp [dedupGo]
  | cons p rest ih =>
    intro su st
    simp only [dedupGo]
    by_cases ht : takeStr p.postText 60 ∈ st
    · rw [if_pos ht]; exact ih su st
    · rw [if_neg ht]
      split
      · rename_i url hu
        split
        · rename_i hsu
          obtain ⟨hpair, hstate⟩ := ih su (takeStr p.postText 60 :: st)
          refine ⟨hpair, fun q hq => ?_⟩
          obtain ⟨hq1, hq2⟩ := hstate q hq
          exact ⟨fun hmem => hq1 (List.mem_cons_of_mem _ hmem), hq2⟩
        · rename_i hsu
          obtain ⟨hpair, hstate⟩ :=
            ih (url :: su) (takeStr p.postText 60 :: st)
          refine ⟨List.pairwise_cons.mpr ⟨?_, hpair⟩, ?_⟩
          · intro q hq
            obtain ⟨hq1, hq2⟩ := hstate q hq
            refine ⟨fun hcontra =>
              hq1 (List.mem_cons.mpr (Or.inl hcontra.symm)), ?_⟩
            right
            rw [hu]
            intro hqu
            exact hq2 url hqu.symm (List.mem_cons_self _ _)
          · intro q hq
            rcases List.mem_cons.mp hq with rfl | hq
            · refine ⟨ht, fun u hu' => ?_⟩
              rw [hu] at hu'
              cases hu'
              exact hsu
            · obtain ⟨hq1, hq2⟩ := hstate q hq
              exact ⟨fun hst => hq1 (List.mem_cons_of_mem _ hst),
                fun u hu' => fun hmem =>
                  hq2 u hu' (List.mem_cons_of_mem _ hmem)⟩
      · rename_i hu
        obtain ⟨hpair, hstate⟩ := ih su (takeStr p.postText 60 :: st)
        refine ⟨List.pairwise_cons.mpr ⟨?_, hpair⟩, ?_⟩
        · intro q hq
          obtain ⟨hq1, _⟩ := hstate q hq
          exact ⟨fun hcontra => hq1 (List.mem_cons.mpr (Or.inl hcontra.symm)),
            Or.inl hu⟩
        · intro q hq
          rcases List.mem_cons.mp hq with rfl | hq
          · exact ⟨ht, fun u hu' => absurd (hu.symm.trans hu') (by simp)⟩
          · obtain ⟨hq1, hq2⟩ := hstate q hq
            exact ⟨fun hst => hq1 (List.mem_cons_of_mem _ hst), hq2⟩

theorem dedupGo_eq_self :
    ∀ (l : List Post) (seenUrls seenText : List String),
      l.Pairwise distinctPost →
      (∀ p ∈ l, takeStr p.postText 60 ∉ seenText) →
      (∀ p ∈ l, ∀ u, p.postUrl = some u → u ∉ seenUrls) →
      dedupGo seenUrls seenText l = l := by
  intro l
  induction l with
  | nil => intro su st _ _ _; rfl
  | cons p rest ih =>
    intro su st hpair hst hsu
    rw [List.pairwise_cons] at hpair
    have hpt : takeStr p.postText 60 ∉ st := hst p (List.mem_cons_self _ _)
    simp only [dedupGo, if_neg hpt]
    have hrest : ∀ q ∈ rest, takeStr q.postText 60 ∉ takeStr p.postText 60 :: st := by
      intro q hq
      intro hmem
      rcases List.mem_cons.mp hmem with heq | hmem'
      · exact (hpair.1 q hq).1 heq.symm
      · exact hst q (List.mem_cons_of_mem _ hq) hmem'
    split
    · rename_i url hu
      have hpu : url ∉ su := hsu p (List.mem_cons_self _ _) url hu
      rw [if_neg hpu]
      have hresturl : ∀ q ∈ rest, ∀ u, q.postUrl = some u → u ∉ url :: su := by
        intro q hq u hu' hmem
        rcases List.mem_cons.mp hmem with rfl | hmem'
        · rcases (hpair.1 q hq).2 with hnone | hne
          · rw [hnone] at hu; cases hu
          · exact hne (hu.trans hu'.symm)
        · exact hsu q (List.mem_cons_of_mem _ hq) u hu' hmem'
      rw [ih _ _ hpair.2 hrest hresturl]
    · rename_i hu
      rw [ih su _ hpair.2 hrest
        (fun q hq u hu' => hsu q (List.mem_cons_of_mem _ hq) u hu')]

theorem sentiment_implies_skip (name headline text : String)
    (hs : isSentimentPost text = true) :
    (shouldSkip name headline text).skip = true := by
  unfold shouldSkip
  split_ifs <;> simp_all

theorem mem_collectChunksGo :
    ∀ {chunks seen : List String} {p : Post},
      p ∈ collectChunksGo seen chunks →
      120 ≤ strLen p.cardText ∧ strLen p.cardText ≤ 5000 ∧ p.postUrl = none := by
  intro chunks
  induction chunks with
  | nil => intro seen p h; simp [collectChunksGo] at h
  | cons chunk rest ih =>
    intro seen p h
    simp only [collectChunksGo] at h
    split at h
    · exact ih h
    · rename_i hlen
      split at h
      · exact ih h
      · split at h
        · exact ih h
        · split at h
          · exact ih h
          · rcases List.mem_cons.mp h with rfl | h
            · simp only [Bool.or_eq_true, decide_eq_true_eq, not_or] at hlen
              refine ⟨?_, ?_, rfl⟩
              · show 120 ≤ strLen (trimStr chunk)
                omega
              · show strLen (trimStr chunk) ≤ 5000
                omega
            · exact ih h

/-! ### Claim theorems -/

/-- Claim C4: `dedup` preserves first-seen order (its output is a
subsequence of the input), no two retained candidates share a text-prefix
key or a non-null locator (the membership-set drop rule), and `dedup` is
idempotent. -/
theorem dedup_first_seen_order_and_idempotent :
    (∀ xs : List Post, (dedup xs).Sublist xs) ∧
    (∀ xs : List Post, (dedup xs).Pairwise distinctPost) ∧
    (∀ xs : List Post, dedup (dedup xs) = dedup xs) := by
  refine ⟨fun xs => dedupGo_sublist xs [] [],
    fun xs => (dedupGo_invariant xs [] []).1, fun xs => ?_⟩
  exact dedupGo_eq_self (dedup xs) [] [] (dedupGo_invariant xs [] []).1
    (by intro p _; exact List.not_mem_nil _)
    (by intro p _ u _; exact List.not_mem_nil _)

/-- Claim C5: strategies are tried in fixed order and the cascade stops at
the first one whose result list is non-empty; an exception inside a
strategy counts as zero results; when every strategy errors or returns
empty the cascade yields `[]` and the selector returns null rather than
raising. -/
theorem cascade_stops_at_first_nonempty
    (pre rest l : List StrategyResult) (found : List Post) (e : String)
    (scoreFn : Post → Nat → Nat → Int)
    (commentedUrls recentAuthors : List String) (thresholds : List Int)
    (hpre : ∀ r ∈ pre, strategyYield r = 0) (hfound : found ≠ [])
    (hall : ∀ r ∈ l, strategyYield r = 0) :
    runStrategies (pre ++ Except.ok found :: rest) = found ∧
    runStrategies (Except.error e :: rest) = runStrategies rest ∧
    runStrategies l = [] ∧
    findOneInterestingPost scoreFn l commentedUrls recentAuthors
      thresholds = none := by
  refine ⟨?_, rfl, runStrategies_all_zero hall, ?_⟩
  · rw [runStrategies_append_zero hpre]
    simp only [runStrategies]
    rw [if_pos (List.length_pos.mpr hfound)]
  · unfold findOneInterestingPost
    rw [runStrategies_all_zero hall]
    rfl

/-- Claim C6 (amended): when `bodyText` has fewer than 100 characters the
base content score `calcHeuristicScore` is exactly 0 for every comment
sample list, and the `heuristic` value reported in the breakdown is the
clamp of the contextual modifiers alone — which need not be 0. -/
theorem content_base_zero_when_short (postText : String)
    (commentsData : List String) (reactionCount commentCount : Nat)
    (isConnection : Bool) (postFormat : String) (authorReplied : Bool)
    (hshort : strLen postText < 100) :
    calcHeuristicScore postText commentsData = 0 ∧
    breakdownHeuristic postText commentsData reactionCount commentCount
      isConnection postFormat authorReplied =
      clampI (modifierSum reactionCount commentCount isConnection postFormat
        commentsData authorReplied) 0 100 := by
  have hbase : calcHeuristicScore postText commentsData = 0 := by
    simp only [calcHeuristicScore]
    rw [if_pos hshort]
  exact ⟨hbase, by unfold breakdownHeuristic; rw [hbase, zero_add]⟩

/-- Claim C6 counterexample: a sub-100-character body with default inputs
(`postFormat = "text"`) already reports breakdown heuristic 10, not 0. -/
theorem content_breakdown_nonzero_short_counterexample :
    strLen "short post" < 100 ∧
    breakdownHeuristic "short post" [] 0 0 false "text" false = 10 := by
  decide

/-- Witness for `content_base_zero_when_short` at a concrete input. -/
theorem content_base_zero_example :
    calcHeuristicScore "short post" [] = 0 ∧
    breakdownHeuristic "short post" [] 0 0 false "text" false =
      clampI (modifierSum 0 0 false "text" [] false) 0 100 :=
  content_base_zero_when_short "short post" [] 0 0 false "text" false
    (by decide)

/-- Claim C7: for a headline without proxy-boost terms, the seniority score
is `min(points * 4, 80)` for the first matching entry of the
priority-ordered table, and the neutral 20 when no entry matches. -/
theorem seniority_first_match_times_four (headline : String)
    (hproxy : includes (lowerStr headline) "creator" = false ∧
      includes (lowerStr headline) "newsletter" = false ∧
      includes (lowerStr headline) "angel" = false ∧
      includes (lowerStr headline) "investor" = false) :
    (∀ kw : String, ∀ pts : Int,
      SENIORITY_SIGNALS.find?
        (fun e => includes (lowerStr headline) e.1) = some (kw, pts) →
      calcSeniorityScore headline = min (pts * 4) 80) ∧
    (SENIORITY_SIGNALS.find?
        (fun e => includes (lowerStr headline) e.1) = none →
      calcSeniorityScore headline = 20) := by
  obtain ⟨h1, h2, h3, h4⟩ := hproxy
  constructor
  · intro kw pts hfind
    have hmem : (kw, pts) ∈ SENIORITY_SIGNALS :=
      List.mem_of_find?_eq_some hfind
    have hbound : ∀ e ∈ SENIORITY_SIGNALS, 10 ≤ e.2 ∧ e.2 ≤ 25 := by decide
    have hpts := hbound _ hmem
    simp only at hpts
    simp only [calcSeniorityScore]
    rw [hfind]
    simp only [h1, h2, h3, h4, Bool.or_self, Bool.false_eq_true, if_false,
      add_zero, clampI, minI, maxI]
    split_ifs <;> omega
  · intro hfind
    simp only [calcSeniorityScore]
    rw [hfind]
    simp only [h1, h2, h3, h4, Bool.or_self, Bool.false_eq_true, if_false,
      add_zero, clampI, minI, maxI]
    split_ifs <;> omega

/-- Witness for `seniority_first_match_times_four`: "founder of acme" hits
the 25-point top entry and scores min(100, 80) = 80. -/
theorem seniority_founder_example :
    calcSeniorityScore "founder of acme" = min ((25 : Int) * 4) 80 ∧
    calcSeniorityScore "founder of acme" = 80 :=
  ⟨(seniority_first_match_times_four "founder of acme" (by decide)).1
      "founder" 25 (by decide),
   by decide⟩

/-- Claim C9 (amended): the visibility score is a step function of comment
count that is antitone on counts ≥ 6, saturates at the maximum 100 on the
6–20 band, and gives the sub-maximal 90 to counts ≤ 5 — so it is not
antitone on the whole domain. -/
theorem visibility_saturation_and_decay (c c1 c2 : Nat) (h6 : 6 ≤ c1)
    (h12 : c1 ≤ c2) :
    calcCommentVisibilityScore c2 ≤ calcCommentVisibilityScore c1 ∧
    (c ≤ 5 → calcCommentVisibilityScore c = 90) ∧
    (6 ≤ c ∧ c ≤ 20 → calcCommentVisibilityScore c = 100) ∧
    calcCommentVisibilityScore c ≤ 100 := by
  unfold calcCommentVisibilityScore
  refine ⟨?_, ?_, ?_, ?_⟩ <;> intros <;> split_ifs <;> omega

/-- Claim C9 counterexample: 5 ≤ 6 yet visibility(5) = 90 < 100 =
visibility(6), refuting global antitonicity in the comment count. -/
theorem visibility_not_antitone_counterexample :
    (5 : Nat) ≤ 6 ∧
    calcCommentVisibilityScore 5 < calcCommentVisibilityScore 6 := by
  decide

/-- Witness for `visibility_saturation_and_decay` at concrete counts. -/
theorem visibility_saturation_example :
    calcCommentVisibilityScore 300 ≤ calcCommentVisibilityScore 10 ∧
    calcCommentVisibilityScore 3 = 90 ∧
    calcCommentVisibilityScore 10 = 100 := by
  have ha := visibility_saturation_and_decay 3 10 300 (by omega) (by omega)
  have hb := visibility_saturation_and_decay 10 10 300 (by omega) (by omega)
  exact ⟨ha.1, ha.2.1 (by omega), hb.2.2.1 ⟨by omega, by omega⟩⟩

/-- Claim C10: with `totalPosts = 0` the recency scorer performs no
division and returns the neutral 50 (70 with the age-label bonus, both
already inside [0,100]); the positional formula is applied exactly when
`totalPosts > 0`. -/
theorem recency_zero_total_neutral (i total : Nat) (postAge : String)
    (htotal : 0 < total) :
    calcRecencyScore i 0 postAge =
      (if recencyAgeBoost postAge then 70 else 50) ∧
    calcRecencyScore i total postAge =
      clampQ ((1 - (i : Rat) / (total : Rat)) * 100 +
        (if recencyAgeBoost postAge then 20 else 0)) 0 100 := by
  constructor
  · simp only [calcRecencyScore]
    rw [if_neg (lt_irrefl 0)]
    by_cases hb : recencyAgeBoost postAge
    · rw [if_pos hb, if_pos hb]
      norm_num [clampQ, minQ, maxQ]
    · rw [if_neg hb, if_neg hb]
      norm_num [clampQ, minQ, maxQ]
  · simp only [calcRecencyScore]
    rw [if_pos htotal]

/-- Witness for `recency_zero_total_neutral` at concrete inputs. -/
theorem recency_zero_total_example :
    calcRecencyScore 3 0 "" = 50 ∧ calcRecencyScore 3 10 "" = 70 := by
  have h := recency_zero_total_neutral 3 10 "" (by omega)
  have hb : recencyAgeBoost "" = false := by decide
  constructor
  · rw [h.1, hb]
    norm_num
  · rw [h.2, hb]
    norm_num [clampQ, minQ, maxQ]

/-- Witness for `cascade_stops_at_first_nonempty` at concrete strategy
outcomes: an error and an empty list are passed over, the first non-empty
list wins, and an all-failing cascade makes the selector return null. -/
theorem cascade_stops_example :
    runStrategies [Except.error "boom", Except.ok [],
      Except.ok [demoPostA], Except.ok [demoPostB]] = [demoPostA] ∧
    runStrategies [Except.error "boom", Except.ok []] = [] ∧
    findOneInterestingPost demoScoreFn [Except.error "boom", Except.ok []]
      [] [] demoThresholds = none := by
  have h := cascade_stops_at_first_nonempty
    [Except.error "boom", Except.ok []] [Except.ok [demoPostB]]
    [Except.error "boom", Except.ok []] [demoPostA] "boom" demoScoreFn
    [] [] demoThresholds
    (by decide) (by simp [demoPostA]) (by decide)
  exact ⟨h.1, h.2.2.1, h.2.2.2⟩

/-- Claim C2: a grief-signal match (checked only against the first 600
characters of the body) forces `shouldSkip` to report exclusion; the
grief reason is exactly the fourth rule, reported only when the
open-to-work, student and recruitment rules did not already match; and the
selector never returns a candidate whose body matches a grief signal. -/
theorem grief_excluded_and_never_selected
    (scoreFn : Post → Nat → Nat → Int) (strategyResults : List StrategyResult)
    (commentedUrls recentAuthors : List String) (thresholds : List Int)
    (name headline text t t' : String) :
    (isSentimentPost text = true → (shouldSkip name headline text).skip = true) ∧
    ((shouldSkip name headline text).reason =
        "Post is about grief / tragedy — skip out of respect" ↔
      isOpenToWork name headline text = false ∧
        isStudent name headline text = false ∧ isJobPost text = false ∧
        isSentimentPost text = true) ∧
    (takeStr t 600 = takeStr t' 600 → isSentimentPost t = isSentimentPost t') ∧
    (∀ w, findOneInterestingPost scoreFn strategyResults commentedUrls
        recentAuthors thresholds = some w →
      isSentimentPost w.post.postText = false) := by
  refine ⟨sentiment_implies_skip name headline text, ?_, ?_, ?_⟩
  · unfold shouldSkip
    split_ifs with h1 h2 h3 h4
    · exact ⟨fun hstr => absurd hstr (by decide),
        fun hr => absurd h1 (by simp [hr.1])⟩
    · exact ⟨fun hstr => absurd hstr (by decide),
        fun hr => absurd h2 (by simp [hr.2.1])⟩
    · exact ⟨fun hstr => absurd hstr (by decide),
        fun hr => absurd h3 (by simp [hr.2.2.1])⟩
    · simp only [Bool.not_eq_true] at h1 h2 h3
      exact ⟨fun _ => ⟨h1, h2, h3, h4⟩, fun _ => rfl⟩
    · exact ⟨fun hstr => absurd hstr (by decide),
        fun hr => absurd h4 (by simp [hr.2.2.2])⟩
  · intro heq
    unfold isSentimentPost
    rw [heq]
  · intro w hw
    have hskip := (mem_buildCandidates (findOne_eq_some hw)).2.1
    by_contra hsent
    simp only [Bool.not_eq_false] at hsent
    rw [sentiment_implies_skip _ _ _ hsent] at hskip
    cases hskip

/-- Witness for `grief_excluded_and_never_selected`: a concrete grief text
is excluded, and a run that selects the benign `demoPostA` returns a
candidate whose body has no grief signal. -/
theorem grief_excluded_example :
    isSentimentPost "lost my father this week" = true ∧
    (shouldSkip "Ann Author" "CTO at Acme" "lost my father this week").skip
      = true ∧
    findOneInterestingPost demoScoreFn [Except.ok [demoPostA]] [] []
      demoThresholds = some ⟨demoPostA, 100⟩ ∧
    isSentimentPost demoPostA.postText = false := by
  refine ⟨by decide, ?_, by decide, ?_⟩
  · exact (grief_excluded_and_never_selected demoScoreFn [] [] []
      demoThresholds "Ann Author" "CTO at Acme" "lost my father this week"
      "" "").1 (by decide)
  · exact (grief_excluded_and_never_selected demoScoreFn [Except.ok [demoPostA]]
      [] [] demoThresholds "" "" "" "" "").2.2.2 ⟨demoPostA, 100⟩ (by decide)

/-- Claim C8 (amended): the scoring loop skips locator-less candidates
before filtering and scoring (so they are not retained for diagnostics),
and the selector never returns a candidate whose locator is null. -/
theorem selection_requires_locator
    (scoreFn : Post → Nat → Nat → Int) (strategyResults : List StrategyResult)
    (commentedUrls recentAuthors : List String) (thresholds : List Int)
    (posts : List Post) :
    (∀ p ∈ evaluatedPosts commentedUrls recentAuthors posts,
      p.postUrl ≠ none) ∧
    (∀ w, findOneInterestingPost scoreFn strategyResults commentedUrls
      recentAuthors thresholds = some w → w.post.postUrl ≠ none) := by
  constructor
  · intro p hp
    exact (mem_evaluatedPosts hp).2.1
  · intro w hw
    exact (mem_buildCandidates (findOne_eq_some hw)).2.2.1

/-- Claim C8 counterexample: a locator-less copy of an otherwise acceptable
candidate never reaches the scoring step — the loop drops it at the very
first gate, so it is not "retained through filtering and scoring". -/
theorem locatorless_skipped_counterexample :
    noUrlPost.postUrl = none ∧
    evaluatedPosts [] [] [noUrlPost] = [] ∧
    evaluatedPosts [] [] [demoPostA] = [demoPostA] := by
  decide

/-- Witness for `selection_requires_locator` at a concrete input. -/
theorem selection_requires_locator_example :
    demoPostA.postUrl ≠ none := by
  have h := (selection_requires_locator demoScoreFn [] [] [] demoThresholds
    [demoPostA]).1
  exact h demoPostA (by decide)

/-- Claim C3 (amended): the link-walk and data-urn strategies filter their
results to bodies of at least 80 characters; the body-text fallback does
not — it only guarantees the 120–5000 window on the whole chunk
(`cardText`) and can retain a candidate whose parsed body is shorter
than 80. -/
theorem strategy_min_length_guarantees (raw : List Post) (bodyText : String) :
    (∀ p ∈ strategyLengthFilter raw, 80 ≤ strLen p.postText) ∧
    (∀ p ∈ collectByBodyText bodyText,
      120 ≤ strLen p.cardText ∧ strLen p.cardText ≤ 5000 ∧
        p.postUrl = none) := by
  constructor
  · intro p hp
    have := List.of_mem_filter hp
    simpa using this
  · intro p hp
    unfold collectByBodyText at hp
    split at hp
    · exact absurd hp (List.not_mem_nil _)
    · exact mem_collectChunksGo hp

set_option maxRecDepth 40000 in
/-- Claim C3 counterexample: a concrete page text on which the body-text
fallback retains a candidate whose parsed body has only 34 characters. -/
theorem bodytext_short_candidate_counterexample :
    (collectByBodyText demoBodyText).any
      (fun p => decide (strLen p.postText < 80)) = true := by
  decide

/-- Witness for `strategy_min_length_guarantees` at concrete inputs. -/
theorem strategy_min_length_example :
    80 ≤ strLen demoPostA.postText := by
  have h := (strategy_min_length_guarantees [demoPostA] "").1
  exact h demoPostA (by decide)

/-- Claim C1: over any surviving candidate list and descending tier list,
the active threshold is the first tier some candidate's total meets; if no
tier is met the selector returns null; otherwise it returns the first
candidate (in discovery order) with the maximal total among those meeting
the active tier. -/
theorem selector_active_threshold (scored : List ScoredPost)
    (thresholds : List Int) (hdesc : thresholds.Pairwise (· ≥ ·)) :
    (activeThreshold scored thresholds = none ↔
      ∀ t ∈ thresholds, ∀ c ∈ scored, c.compositeScore < t) ∧
    (activeThreshold scored thresholds = none →
      selectPhase scored thresholds = none) ∧
    (∀ t, activeThreshold scored thresholds = some t →
      (∃ pre suf, thresholds = pre ++ t :: suf ∧
        ∀ t' ∈ pre, ∀ c ∈ scored, c.compositeScore < t') ∧
      (∃ c ∈ scored, t ≤ c.compositeScore) ∧
      ∃ w l1 l2, selectPhase scored thresholds = some w ∧
        scored.filter (fun c => decide (t ≤ c.compositeScore)) =
          l1 ++ w :: l2 ∧
        (∀ c ∈ l1, c.compositeScore < w.compositeScore) ∧
        ∀ c ∈ scored, t ≤ c.compositeScore →
          c.compositeScore ≤ w.compositeScore) := by
  have hA : activeThreshold scored thresholds = none ↔
      ∀ t ∈ thresholds, ∀ c ∈ scored, c.compositeScore < t := by
    unfold activeThreshold
    rw [List.find?_eq_none]
    constructor
    · intro h t ht c hc
      have h' := h t ht
      simp only [List.any_eq_true, decide_eq_true_eq] at h'
      push_neg at h'
      exact h' c hc
    · intro h t ht
      simp only [List.any_eq_true, decide_eq_true_eq]
      push_neg
      exact fun c hc => h t ht c hc
  refine ⟨hA, ?_, ?_⟩
  · intro hnone
    have hall := hA.mp hnone
    have hcand :
        scored.filter (fun c => minGate thresholds c.compositeScore) = [] := by
      rw [List.filter_eq_nil_iff]
      intro c hc
      unfold minGate
      cases hlast : thresholds.getLast? with
      | none => simp
      | some tl =>
        simp only [decide_eq_true_eq, Bool.not_eq_true]
        exact not_le.mpr
          (hall tl (List.mem_of_getLast?_eq_some hlast) c hc)
    unfold selectPhase
    rw [hcand]
    rfl
  · intro t hsome
    obtain ⟨pre, suf, hthr, hprefalse, hpt⟩ := find?_some_split hsome
    have htmem : t ∈ thresholds := List.mem_of_find?_eq_some hsome
    have hPt : ∃ c ∈ scored, t ≤ c.compositeScore := by
      simp only [List.any_eq_true, decide_eq_true_eq] at hpt
      exact hpt
    have hprelt : ∀ t' ∈ pre, ∀ c ∈ scored, c.compositeScore < t' := by
      intro t' ht' c hc
      have h' := hprefalse t' ht'
      simp only [List.any_eq_false, decide_eq_true_eq] at h'
      exact not_le.mp (h' c hc)
    refine ⟨⟨pre, suf, hthr, hprelt⟩, hPt, ?_⟩
    cases hlast : thresholds.getLast? with
    | none =>
      rw [List.getLast?_eq_none_iff] at hlast
      rw [hlast] at htmem
      exact absurd htmem (List.not_mem_nil _)
    | some tl =>
      have hgate : ∀ t' ∈ thresholds, ∀ s : Int, t' ≤ s →
          minGate thresholds s = true := by
        intro t' ht' s hs
        unfold minGate
        rw [hlast]
        simp only [decide_eq_true_eq]
        exact le_trans (getLast?_le_of_pairwise_ge hdesc ht' hlast) hs
      obtain ⟨c0, hc0, hc0le⟩ := hPt
      have hc0cand :
          c0 ∈ scored.filter (fun c => minGate thresholds c.compositeScore) :=
        List.mem_filter.mpr ⟨hc0, hgate t htmem _ hc0le⟩
      have hanyeq : ∀ t' ∈ thresholds,
          ((scored.filter (fun c => minGate thresholds c.compositeScore)).any
            (fun c => decide (t' ≤ c.compositeScore))) =
          (scored.any (fun c => decide (t' ≤ c.compositeScore))) := by
        intro t' ht'
        rw [Bool.eq_iff_iff]
        simp only [List.any_eq_true, List.mem_filter, decide_eq_true_eq]
        constructor
        · rintro ⟨c, ⟨hc, -⟩, hle'⟩
          exact ⟨c, hc, hle'⟩
        · rintro ⟨c, hc, hle'⟩
          exact ⟨c, ⟨hc, hgate t' ht' _ hle'⟩, hle'⟩
      have hfind :
          (thresholds.find? (fun t' =>
            (scored.filter (fun c => minGate thresholds c.compositeScore)).any
              (fun c => decide (t' ≤ c.compositeScore)))) = some t := by
        rw [find?_congr_mem hanyeq]
        exact hsome
      have hvalid :
          (scored.filter (fun c => minGate thresholds c.compositeScore)).filter
            (fun c => decide (t ≤ c.compositeScore)) =
          scored.filter (fun c => decide (t ≤ c.compositeScore)) := by
        rw [List.filter_filter]
        apply List.filter_congr
        intro c hc
        by_cases hle' : t ≤ c.compositeScore
        · simp [hle', hgate t htmem _ hle']
        · simp [hle']
      have hvmem : c0 ∈ scored.filter (fun c => decide (t ≤ c.compositeScore)) :=
        List.mem_filter.mpr ⟨hc0, by simpa using hc0le⟩
      cases hfm : firstMax (scored.filter (fun c =>
          decide (t ≤ c.compositeScore))) with
      | none =>
        rw [firstMax_eq_none] at hfm
        rw [hfm] at hvmem
        exact absurd hvmem (List.not_mem_nil _)
      | some w =>
        obtain ⟨l1, l2, hsplit, hlt, hmax⟩ := firstMax_split hfm
        refine ⟨w, l1, l2, ?_, hsplit, hlt, ?_⟩
        · unfold selectPhase selectAmong
          rw [if_neg (by
            simp only [List.isEmpty_iff]
            exact List.ne_nil_of_mem hc0cand)]
          simp only [hfind, Option.getD_some]
          rw [hvalid, head?_insertionSort, hfm]
        · intro c hc hcle
          exact hmax c (List.mem_filter.mpr ⟨hc, by simpa using hcle⟩)

/-- Witness for `selector_active_threshold`: two surviving candidates with
totals 72 and 58 against the descending tiers [80, 70, 60] give active
threshold 70, and the selector returns the 72-scoring candidate. -/
theorem selector_active_threshold_example :
    activeThreshold demoScored demoThresholds = some 70 ∧
    selectPhase demoScored demoThresholds = some ⟨demoPostA, 72⟩ ∧
    (activeThreshold demoScored demoThresholds = none →
      selectPhase demoScored demoThresholds = none) := by
  refine ⟨by decide, by decide, ?_⟩
  exact (selector_active_threshold demoScored demoThresholds (by decide)).2.1

end LinkedinMe
